import Mathlib

/-!
# darts: the sample generator (`Sampler`, `IndependentSampler`)

A shallow embedding of `include/darts/sampler.h` and
`src/samplers/independent.cpp`.

* `uint32_t` fields are natural numbers; arithmetic on them is reduced modulo `2 ^ 32`.
* The random engine `RNG`, the pixel hash and the configuration type `json` are declared
  outside these two files.  The engine and the hash are parameters of every operation; the
  configuration type is modelled as far as the constructor uses it.
* `float` values are an arbitrary type `φ`: no claim here computes with them.
-/

namespace Darts

/-! ## Collaborators -/

/-- Integer pixel coordinate (`Vec2i`). -/
structure Vec2i where
  x : Int
  y : Int
deriving DecidableEq, Repr

/-- Modelled from the spec: the random engine `RNG`, whose declaration is outside the two source
files.  `σ` is the engine's internal state and `φ` the type of a uniform scalar.  The four
mutating members used by the sampler take the state before the call and give the state after it;
`init` is the state of a default-constructed engine. -/
structure RNG (σ φ : Type) where
  init : σ
  seed : σ → Nat → σ
  advance : σ → Nat → σ
  rand1f : σ → φ × σ
  rand2f : σ → (φ × φ) × σ

/-- Engine contract of the spec: "`seed(value)` deterministically resets internal state from an
integer seed", that is, the state after `seed` is a function of the seed value alone. -/
def SeedResets {σ φ : Type} (R : RNG σ φ) : Prop :=
  ∀ (a b : σ) (v : Nat), R.seed a v = R.seed b v

/-- Engine state after one scalar draw. -/
def RNG.step {σ φ : Type} (R : RNG σ φ) (r : σ) : σ := (R.rand1f r).2

/-- Engine contract of the spec: "`advance(n)` deterministically jumps the generator forward by
`n` draws without re-seeding". -/
def AdvanceIsDraws {σ φ : Type} (R : RNG σ φ) : Prop :=
  ∀ (r : σ) (n : Nat), R.advance r n = (R.step)^[n] r

/-- Modelled from the spec: the configuration object `json` (declared outside the two source
files), restricted to what the constructor reads: objects, integers and the remaining value
kinds.  Floating-point numbers are left out. -/
inductive json where
  | null : json
  | boolean (b : Bool) : json
  | number (n : Int) : json
  | string (s : String) : json
  | array (elems : List json) : json
  | object (members : List (String × json)) : json

/-- Modelled from the spec: the two ways a configuration read fails. -/
inductive json_exception where
  | out_of_range : json_exception
  | type_error : json_exception
deriving DecidableEq, Repr

/-- Modelled from the spec: `j.at(key)`, the checked member lookup: it raises when `j` is not an
object or has no member `key`. -/
def json.atKey (j : json) (key : String) : Except json_exception json :=
  match j with
  | json.object members =>
    match members.lookup key with
    | some v => Except.ok v
    | none => Except.error json_exception.out_of_range
  | _ => Except.error json_exception.type_error

/-- Conversion of an integer to `int` (32-bit two's complement). -/
def toInt32 (v : Int) : Int := (v + 2 ^ 31) % 2 ^ 32 - 2 ^ 31

/-- Conversion of an `int` to `uint32_t`. -/
def toUInt32 (v : Int) : Nat := (v % 2 ^ 32).toNat

/-- Modelled from the spec: `j.get<int>()`: a number (or boolean) is converted to `int`; every
other kind of value raises. -/
def json.get_int (j : json) : Except json_exception Int :=
  match j with
  | json.number n => Except.ok (toInt32 n)
  | json.boolean b => Except.ok (if b then 1 else 0)
  | _ => Except.error json_exception.type_error

/-! ## `Sampler` (sampler.h) -/

/-- The protected fields of `Sampler`, with their default member initialisers. -/
structure Sampler where
  m_base_seed : Nat := 0
  m_samples_per_pixel : Nat := 1
  m_sample_index : Nat := 0
  m_dimension : Nat := 0
  m_pixel : Vec2i := ⟨0, 0⟩
deriving DecidableEq, Repr

/-- `Sampler::set_base_seed`. -/
def Sampler.set_base_seed (s : Sampler) (v : Nat) : Sampler :=
  { s with m_base_seed := v }

/-- `Sampler::start_pixel`: stores pixel and sample index, resets the dimension. -/
def Sampler.start_pixel (s : Sampler) (pixel : Vec2i) (index : Nat) : Sampler :=
  { s with m_pixel := pixel, m_sample_index := index, m_dimension := 0 }

/-- `Sampler::samples_per_pixel`. -/
def Sampler.samples_per_pixel (s : Sampler) : Nat := s.m_samples_per_pixel

/-! ## `IndependentSampler` (independent.cpp) -/

/-- An `IndependentSampler` object: the inherited fields and the engine, held by value. -/
structure IndependentSampler (σ : Type) extends Sampler where
  m_rng : σ

namespace IndependentSampler

variable {σ φ : Type}

/-- The protected default constructor `IndependentSampler()`. -/
def default (R : RNG σ φ) : IndependentSampler σ :=
  { m_rng := R.init }

/-- The constructor `IndependentSampler(const json &j)`:
`m_samples_per_pixel = j.at("samples").get<int>()`. -/
def ofJson (R : RNG σ φ) (j : json) : Except json_exception (IndependentSampler σ) :=
  match j.atKey "samples" with
  | Except.error e => Except.error e
  | Except.ok v =>
    match v.get_int with
    | Except.error e => Except.error e
    | Except.ok n => Except.ok { default R with m_samples_per_pixel := toUInt32 n }

/-- `IndependentSampler::clone`: a default-constructed object receives every field. -/
def clone (R : RNG σ φ) (s : IndependentSampler σ) : IndependentSampler σ :=
  let cloned := default R
  let cloned := { cloned with m_samples_per_pixel := s.m_samples_per_pixel }
  let cloned := { cloned with m_base_seed := s.m_base_seed }
  let cloned := { cloned with m_samples_per_pixel := s.m_samples_per_pixel }
  let cloned := { cloned with m_sample_index := s.m_sample_index }
  let cloned := { cloned with m_dimension := s.m_dimension }
  let cloned := { cloned with m_pixel := s.m_pixel }
  { cloned with m_rng := s.m_rng }

/-- The inherited `set_base_seed`. -/
def set_base_seed (s : IndependentSampler σ) (v : Nat) : IndependentSampler σ :=
  { s with toSampler := s.toSampler.set_base_seed v }

/-- The non-const `sample_index()` accessor followed by an assignment through the reference. -/
def set_sample_index (s : IndependentSampler σ) (v : Nat) : IndependentSampler σ :=
  { s with m_sample_index := v }

/-- `IndependentSampler::start_pixel`. -/
def start_pixel (R : RNG σ φ) (hash : Vec2i → Nat → Nat) (s : IndependentSampler σ)
    (pixel : Vec2i) (index : Nat) : IndependentSampler σ :=
  let base := s.toSampler.start_pixel pixel index
  let r := R.seed s.m_rng (hash pixel base.m_base_seed)
  let r := R.advance r base.m_sample_index
  { toSampler := base, m_rng := r }

/-- `IndependentSampler::next1f`. -/
def next1f (R : RNG σ φ) (s : IndependentSampler σ) : φ × IndependentSampler σ :=
  let d := (s.m_dimension + 1) % 2 ^ 32
  ((R.rand1f s.m_rng).1, { s with m_dimension := d, m_rng := (R.rand1f s.m_rng).2 })

/-- `IndependentSampler::next2f`. -/
def next2f (R : RNG σ φ) (s : IndependentSampler σ) : (φ × φ) × IndependentSampler σ :=
  let d := (s.m_dimension + 2) % 2 ^ 32
  ((R.rand2f s.m_rng).1, { s with m_dimension := d, m_rng := (R.rand2f s.m_rng).2 })

/-! ## Call sequences -/

/-- The two draw operations. -/
inductive Draw where
  | next1f : Draw
  | next2f : Draw
deriving DecidableEq, Repr

/-- What a draw returns: a scalar (`float`) or a pair (`Vec2f`). -/
inductive Value (φ : Type) where
  | scalar (x : φ) : Value φ
  | pair (xy : φ × φ) : Value φ
deriving DecidableEq, Repr

/-- One draw: the returned value and the sampler after the call. -/
def draw (R : RNG σ φ) (s : IndependentSampler σ) : Draw → Value φ × IndependentSampler σ
  | Draw.next1f => (Value.scalar (next1f R s).1, (next1f R s).2)
  | Draw.next2f => (Value.pair (next2f R s).1, (next2f R s).2)

/-- A finite sequence of draws: the returned values in order and the final sampler. -/
def draws (R : RNG σ φ) :
    IndependentSampler σ → List Draw → List (Value φ) × IndependentSampler σ
  | s, [] => ([], s)
  | s, d :: ds => ((draw R s d).1 :: (draws R (draw R s d).2 ds).1, (draws R (draw R s d).2 ds).2)

/-- Every operation a caller can apply to one sampler object. `clone` continues with the copy. -/
inductive Call where
  | set_base_seed (v : Nat) : Call
  | start_pixel (pixel : Vec2i) (index : Nat) : Call
  | next1f : Call
  | next2f : Call
  | set_sample_index (v : Nat) : Call
  | clone : Call
deriving DecidableEq, Repr

/-- One call: the returned value (if the operation returns one) and the sampler after it. -/
def call (R : RNG σ φ) (hash : Vec2i → Nat → Nat) (s : IndependentSampler σ) :
    Call → Option (Value φ) × IndependentSampler σ
  | Call.set_base_seed v => (none, set_base_seed s v)
  | Call.start_pixel pixel index => (none, start_pixel R hash s pixel index)
  | Call.next1f => (some (Value.scalar (next1f R s).1), (next1f R s).2)
  | Call.next2f => (some (Value.pair (next2f R s).1), (next2f R s).2)
  | Call.set_sample_index v => (none, set_sample_index s v)
  | Call.clone => (none, clone R s)

/-- A finite sequence of calls: what each returned, in order, and the final sampler. -/
def calls (R : RNG σ φ) (hash : Vec2i → Nat → Nat) :
    IndependentSampler σ → List Call → List (Option (Value φ)) × IndependentSampler σ
  | s, [] => ([], s)
  | s, c :: cs =>
    ((call R hash s c).1 :: (calls R hash (call R hash s c).2 cs).1,
      (calls R hash (call R hash s c).2 cs).2)

/-- Number of `next1f` calls in a sequence of draws. -/
def count1f (ds : List Draw) : Nat := ds.count Draw.next1f

/-- Number of `next2f` calls in a sequence of draws. -/
def count2f (ds : List Draw) : Nat := ds.count Draw.next2f

/-- Engine state reached by `start_pixel(pixel, index)` followed by `k` calls of `next1f`. -/
def streamState (R : RNG σ φ) (hash : Vec2i → Nat → Nat) (s : IndependentSampler σ)
    (pixel : Vec2i) (index k : Nat) : σ :=
  (draws R (start_pixel R hash s pixel index) (List.replicate k Draw.next1f)).2.m_rng

/-! ## The free store: a sampler and its clone as two objects -/

/-- The sampler objects on the free store: `cells a` is the object that lives at address `a`, if
any, and `next` is the address the next `new` hands out.  The engine is a member object
(`RNG m_rng;`), so it lives inside the cell of its sampler. -/
structure Heap (σ : Type) where
  cells : Nat → Option (IndependentSampler σ)
  next : Nat

/-- Overwrite the object at address `a`. -/
def Heap.store (h : Heap σ) (a : Nat) (o : IndependentSampler σ) : Heap σ :=
  { h with cells := fun x => if x = a then some o else h.cells x }

/-- The expression `new IndependentSampler()`: a default-constructed object at the next free
address; the result is the store and that address. -/
def Heap.alloc (R : RNG σ φ) (h : Heap σ) : Heap σ × Nat :=
  ({ cells := fun x => if x = h.next then some (default R) else h.cells x, next := h.next + 1 },
    h.next)

/-- One assignment `dst->field = src->field`: the object at `dst` is updated from the object at
`src`. -/
def Heap.assign (h : Heap σ) (dst src : Nat)
    (upd : IndependentSampler σ → IndependentSampler σ → IndependentSampler σ) : Heap σ :=
  match h.cells dst, h.cells src with
  | some o, some t => h.store dst (upd o t)
  | _, _ => h

/-- `IndependentSampler::clone` as it acts on the store, statement by statement: `this` is the
receiver, the result is the store after the call and the returned pointer. -/
def Heap.clone (R : RNG σ φ) (h : Heap σ) (this : Nat) : Heap σ × Nat :=
  let cloned := (Heap.alloc R h).2
  let h := (Heap.alloc R h).1
  let h := h.assign cloned this (fun o t => { o with m_samples_per_pixel := t.m_samples_per_pixel })
  let h := h.assign cloned this (fun o t => { o with m_base_seed := t.m_base_seed })
  let h := h.assign cloned this (fun o t => { o with m_samples_per_pixel := t.m_samples_per_pixel })
  let h := h.assign cloned this (fun o t => { o with m_sample_index := t.m_sample_index })
  let h := h.assign cloned this (fun o t => { o with m_dimension := t.m_dimension })
  let h := h.assign cloned this (fun o t => { o with m_pixel := t.m_pixel })
  let h := h.assign cloned this (fun o t => { o with m_rng := t.m_rng })
  (h, cloned)

/-- One call through the pointer `this`.  `clone` allocates; every other member function reads
and writes the fields of `*this`. -/
def Heap.call (R : RNG σ φ) (hash : Vec2i → Nat → Nat) (h : Heap σ) (this : Nat) (c : Call) :
    Option (Value φ) × Heap σ :=
  match c with
  | Call.clone => (none, (Heap.clone R h this).1)
  | c =>
    match h.cells this with
    | some o =>
      ((IndependentSampler.call R hash o c).1,
        h.store this (IndependentSampler.call R hash o c).2)
    | none => (none, h)

/-- An interleaving of calls through several pointers: the pointer and result of each call, and
the final store. -/
def Heap.calls (R : RNG σ φ) (hash : Vec2i → Nat → Nat) :
    Heap σ → List (Nat × Call) → List (Nat × Option (Value φ)) × Heap σ
  | h, [] => ([], h)
  | h, tc :: rest =>
    ((tc.1, (Heap.call R hash h tc.1 tc.2).1) ::
        (Heap.calls R hash (Heap.call R hash h tc.1 tc.2).2 rest).1,
      (Heap.calls R hash (Heap.call R hash h tc.1 tc.2).2 rest).2)

/-- The calls of an interleaving made through the pointer `a`, in order. -/
def callsAt (a : Nat) (sched : List (Nat × Call)) : List (Nat × Call) :=
  sched.filter (fun tc => decide (tc.1 = a))

/-- The results an interleaving produced through the pointer `a`, in order. -/
def resultsAt {β : Type} (a : Nat) (out : List (Nat × β)) : List β :=
  (out.filter (fun r => decide (r.1 = a))).map Prod.snd

/-- The index arguments of a call sequence stay below `n`: every `start_pixel` index and every
value written through `sample_index()`. -/
def indicesBelow (n : Nat) : List Call → Prop
  | [] => True
  | Call.start_pixel _ index :: cs => index < n ∧ indicesBelow n cs
  | Call.set_sample_index v :: cs => v < n ∧ indicesBelow n cs
  | _ :: cs => indicesBelow n cs

end IndependentSampler

/-! ## A concrete engine and hash

The general statements below hold for every engine and hash.  To exhibit them on concrete inputs
we use a 16-bit linear congruential generator whose draws are the top 8 bits of the state. -/

/-- State transition of the example generator. -/
def lcgNext (r : Nat) : Nat := (r * 25173 + 13849) % 65536

/-- The example engine. -/
def lcg : RNG Nat Nat where
  init := 0
  seed := fun _ v => lcgNext (v % 65536)
  advance := fun r n => lcgNext^[n] r
  rand1f := fun r => (r / 256, lcgNext r)
  rand2f := fun r => ((r / 256, lcgNext r / 256), lcgNext (lcgNext r))

/-- The example hash of a pixel and a seed. -/
def mix (p : Vec2i) (seed : Nat) : Nat :=
  (p.x.toNat * 73856093 + p.y.toNat * 19349663 + seed * 83492791) % 4294967296

/-- An example sampler in the middle of a sample: seed 7, pixel (4, 9), index 3, dimension 5. -/
def busySampler : IndependentSampler Nat :=
  { m_base_seed := 7, m_samples_per_pixel := 16, m_sample_index := 3, m_dimension := 5,
    m_pixel := ⟨4, 9⟩, m_rng := 123456789 }

/-- An example sampler that was only constructed and given the seed 7. -/
def freshSampler : IndependentSampler Nat :=
  IndependentSampler.set_base_seed (IndependentSampler.default lcg) 7

/-- An example store holding one object, the busy example sampler, at address 0. -/
def busyHeap : IndependentSampler.Heap Nat :=
  { cells := fun a => if a = 0 then some busySampler else none, next := 1 }

/-! ## Engine lemmas -/

namespace IndependentSampler

variable {σ φ : Type}

theorem draw_dimension (R : RNG σ φ) (s : IndependentSampler σ) (d : Draw) :
    (draw R s d).2.m_dimension
      = (s.m_dimension + (if d = Draw.next1f then 1 else 2)) % 2 ^ 32 := by
  cases d <;> rfl

theorem draw_congr (R : RNG σ φ) (s t : IndependentSampler σ) (d : Draw)
    (hd : s.m_dimension = t.m_dimension) (hr : s.m_rng = t.m_rng) :
    (draw R s d).1 = (draw R t d).1 ∧ (draw R s d).2.m_dimension = (draw R t d).2.m_dimension
      ∧ (draw R s d).2.m_rng = (draw R t d).2.m_rng := by
  cases d <;> simp [draw, next1f, next2f, hd, hr]

theorem draws_congr (R : RNG σ φ) (ds : List Draw) :
    ∀ s t : IndependentSampler σ, s.m_dimension = t.m_dimension → s.m_rng = t.m_rng →
      (draws R s ds).1 = (draws R t ds).1
        ∧ (draws R s ds).2.m_dimension = (draws R t ds).2.m_dimension
        ∧ (draws R s ds).2.m_rng = (draws R t ds).2.m_rng := by
  induction ds with
  | nil => intro s t hd hr; exact ⟨rfl, hd, hr⟩
  | cons d ds ih =>
    intro s t hd hr
    obtain ⟨h1, h2, h3⟩ := draw_congr R s t d hd hr
    obtain ⟨k1, k2, k3⟩ := ih _ _ h2 h3
    simp only [draws]
    exact ⟨by rw [h1, k1], k2, k3⟩

theorem draws_dimension (R : RNG σ φ) (ds : List Draw) :
    ∀ s : IndependentSampler σ, s.m_dimension < 2 ^ 32 →
      (draws R s ds).2.m_dimension
        = (s.m_dimension + count1f ds + 2 * count2f ds) % 2 ^ 32 := by
  induction ds with
  | nil =>
    intro s hs
    simp only [draws, count1f, count2f, List.count_nil, Nat.mul_zero, Nat.add_zero]
    exact (Nat.mod_eq_of_lt hs).symm
  | cons d ds ih =>
    intro s _
    simp only [draws]
    rw [ih _ (by rw [draw_dimension]; exact Nat.mod_lt _ (by norm_num)), draw_dimension]
    cases d <;> simp [count1f, count2f] <;> omega

theorem start_pixel_dimension (R : RNG σ φ) (hash : Vec2i → Nat → Nat)
    (s : IndependentSampler σ) (p : Vec2i) (i : Nat) :
    (start_pixel R hash s p i).m_dimension = 0 := rfl

theorem start_pixel_rng (R : RNG σ φ) (hash : Vec2i → Nat → Nat)
    (s : IndependentSampler σ) (p : Vec2i) (i : Nat) :
    (start_pixel R hash s p i).m_rng = R.advance (R.seed s.m_rng (hash p s.m_base_seed)) i := rfl

theorem count1f_replicate (n : Nat) : count1f (List.replicate n Draw.next1f) = n := by
  simp [count1f]

theorem count2f_replicate (n : Nat) : count2f (List.replicate n Draw.next1f) = 0 := by
  induction n with
  | zero => rfl
  | succ n ih =>
    simp only [count2f, List.replicate_succ] at ih ⊢
    rw [List.count_cons_of_ne (by decide), ih]

theorem draws_replicate_rng (R : RNG σ φ) (k : Nat) :
    ∀ s : IndependentSampler σ,
      (draws R s (List.replicate k Draw.next1f)).2.m_rng = (R.step)^[k] s.m_rng := by
  induction k with
  | zero => intro s; rfl
  | succ k ih =>
    intro s
    simp only [List.replicate_succ, draws, Function.iterate_succ, Function.comp_apply]
    rw [ih]
    rfl

theorem streamState_eq (R : RNG σ φ) (hA : AdvanceIsDraws R) (hash : Vec2i → Nat → Nat)
    (s : IndependentSampler σ) (p : Vec2i) (i k : Nat) :
    streamState R hash s p i k = (R.step)^[i + k] (R.seed s.m_rng (hash p s.m_base_seed)) := by
  unfold streamState
  rw [draws_replicate_rng, start_pixel_rng, hA, ← Function.iterate_add_apply, Nat.add_comm]

theorem clone_eq (R : RNG σ φ) (s : IndependentSampler σ) : clone R s = s := rfl

theorem dimension_replicate (R : RNG σ φ) (hash : Vec2i → Nat → Nat)
    (s : IndependentSampler σ) (p : Vec2i) (i n : Nat) :
    (draws R (start_pixel R hash s p i) (List.replicate n Draw.next1f)).2.m_dimension
      = n % 2 ^ 32 := by
  rw [draws_dimension R _ _ (by rw [start_pixel_dimension]; norm_num), start_pixel_dimension,
    count1f_replicate, count2f_replicate]
  simp

end IndependentSampler

open IndependentSampler

theorem toUInt32_toInt32 (n : Int) : (toUInt32 (toInt32 n) : Int) = n % 2 ^ 32 := by
  unfold toUInt32 toInt32
  norm_num
  omega

theorem lookup_none_of_absent (key : String) (members : List (String × json))
    (h : ∀ kv ∈ members, kv.1 ≠ key) : members.lookup key = none := by
  induction members with
  | nil => rfl
  | cons kv rest ih =>
    obtain ⟨k, v⟩ := kv
    have hk : k ≠ key := h (k, v) (List.mem_cons_self _ _)
    have hne : (key == k) = false := by
      simpa using fun e : key = k => hk e.symm
    simp only [List.lookup, hne]
    exact ih (fun kv hkv => h kv (List.mem_cons_of_mem _ hkv))

theorem ofJson_number {σ φ : Type} (R : RNG σ φ) (members : List (String × json)) (n : Int)
    (hm : members.lookup "samples" = some (json.number n)) :
    ofJson R (json.object members)
      = Except.ok { IndependentSampler.default R with
          m_samples_per_pixel := toUInt32 (toInt32 n) } := by
  simp [ofJson, json.atKey, hm, json.get_int]

theorem ofJson_ok_index {σ φ : Type} (R : RNG σ φ) (j : json) (s : IndependentSampler σ)
    (h : ofJson R j = Except.ok s) : s.m_sample_index = 0 := by
  unfold ofJson at h
  split at h
  · exact absurd h (by simp)
  · split at h
    · exact absurd h (by simp)
    · injection h with h
      rw [← h]
      rfl

theorem call_index_in_range {σ φ : Type} (R : RNG σ φ) (hash : Vec2i → Nat → Nat) (n : Nat)
    (s : IndependentSampler σ) (c : Call) (hn : s.m_samples_per_pixel = n)
    (hi : s.m_sample_index < n) (hc : indicesBelow n [c]) :
    (call R hash s c).2.m_samples_per_pixel = n ∧ (call R hash s c).2.m_sample_index < n := by
  cases c with
  | set_base_seed v => exact ⟨hn, hi⟩
  | start_pixel pixel index => exact ⟨hn, hc.1⟩
  | next1f => exact ⟨hn, hi⟩
  | next2f => exact ⟨hn, hi⟩
  | set_sample_index v => exact ⟨hn, hc.1⟩
  | clone => exact ⟨hn, hi⟩

theorem calls_index_in_range {σ φ : Type} (R : RNG σ φ) (hash : Vec2i → Nat → Nat) (n : Nat)
    (cs : List Call) :
    ∀ s : IndependentSampler σ, s.m_samples_per_pixel = n → s.m_sample_index < n →
      indicesBelow n cs →
      (calls R hash s cs).2.m_samples_per_pixel = n ∧ (calls R hash s cs).2.m_sample_index < n := by
  induction cs with
  | nil => intro s hn hi _; exact ⟨hn, hi⟩
  | cons c cs ih =>
    intro s hn hi hc
    have hhead : indicesBelow n [c] := by
      cases c <;> simp_all [indicesBelow]
    have htail : indicesBelow n cs := by
      cases c <;> simp_all [indicesBelow]
    obtain ⟨h1, h2⟩ := call_index_in_range R hash n s c hn hi hhead
    exact ih _ h1 h2 htail

theorem lcgNext_ne (r : Nat) : r ≠ lcgNext r := by
  unfold lcgNext
  omega

theorem lcg_step (r : Nat) : lcg.step r = lcgNext r := rfl

theorem lcg_no_repeat_fresh (a b : Nat) (hab : a < b) (hb : b ≤ 4) :
    (lcg.step)^[a] (lcg.seed freshSampler.m_rng (mix ⟨0, 0⟩ freshSampler.m_base_seed))
      ≠ (lcg.step)^[b] (lcg.seed freshSampler.m_rng (mix ⟨0, 0⟩ freshSampler.m_base_seed)) := by
  have hb1 : 1 ≤ b := by omega
  interval_cases b <;> interval_cases a <;> decide

theorem lcg_seedResets : SeedResets lcg := fun _ _ _ => rfl

theorem lcg_advanceIsDraws : AdvanceIsDraws lcg := fun _ _ => rfl

/-! ## Store lemmas -/

theorem assign_cells_other {σ : Type} (h : Heap σ) (dst src a : Nat)
    (upd : IndependentSampler σ → IndependentSampler σ → IndependentSampler σ) (ha : a ≠ dst) :
    (h.assign dst src upd).cells a = h.cells a := by
  unfold Heap.assign
  split
  · simp [Heap.store, ha]
  · rfl

theorem assign_next {σ : Type} (h : Heap σ) (dst src : Nat)
    (upd : IndependentSampler σ → IndependentSampler σ → IndependentSampler σ) :
    (h.assign dst src upd).next = h.next := by
  unfold Heap.assign
  split <;> rfl

theorem assign_cells_dst {σ : Type} (h : Heap σ) (dst src : Nat) (o t : IndependentSampler σ)
    (upd : IndependentSampler σ → IndependentSampler σ → IndependentSampler σ)
    (hd : h.cells dst = some o) (hs : h.cells src = some t) :
    (h.assign dst src upd).cells dst = some (upd o t) := by
  unfold Heap.assign
  rw [hd, hs]
  simp [Heap.store]

theorem assign_step {σ : Type} (h : Heap σ) (dst src : Nat) (o t : IndependentSampler σ)
    (upd : IndependentSampler σ → IndependentSampler σ → IndependentSampler σ)
    (hd : h.cells dst = some o) (hs : h.cells src = some t) (hne : src ≠ dst) :
    (h.assign dst src upd).cells dst = some (upd o t)
      ∧ (h.assign dst src upd).cells src = some t :=
  ⟨assign_cells_dst h dst src o t upd hd hs, by rw [assign_cells_other h dst src src upd hne, hs]⟩

theorem clone_ptr {σ φ : Type} (R : RNG σ φ) (h : Heap σ) (this : Nat) :
    (Heap.clone R h this).2 = h.next := rfl

theorem clone_next {σ φ : Type} (R : RNG σ φ) (h : Heap σ) (this : Nat) :
    (Heap.clone R h this).1.next = h.next + 1 := by
  simp only [Heap.clone, assign_next]
  rfl

theorem clone_cells_old {σ φ : Type} (R : RNG σ φ) (h : Heap σ) (this a : Nat)
    (ha : a < h.next) : (Heap.clone R h this).1.cells a = h.cells a := by
  have hne : a ≠ (Heap.alloc R h).2 := by
    show a ≠ h.next
    omega
  simp only [Heap.clone]
  rw [assign_cells_other _ _ _ _ _ hne, assign_cells_other _ _ _ _ _ hne,
    assign_cells_other _ _ _ _ _ hne, assign_cells_other _ _ _ _ _ hne,
    assign_cells_other _ _ _ _ _ hne, assign_cells_other _ _ _ _ _ hne,
    assign_cells_other _ _ _ _ _ hne]
  show (if a = h.next then _ else h.cells a) = _
  rw [if_neg (by omega)]

theorem clone_cells_new {σ φ : Type} (R : RNG σ φ) (h : Heap σ) (this : Nat)
    (o : IndependentSampler σ) (hlive : h.cells this = some o) (hp : this < h.next) :
    (Heap.clone R h this).1.cells (Heap.clone R h this).2 = some (clone R o) := by
  have hne : this ≠ h.next := by omega
  have d0 : (Heap.alloc R h).1.cells h.next = some (IndependentSampler.default R) := by
    simp [Heap.alloc]
  have s0 : (Heap.alloc R h).1.cells this = some o := by
    simp [Heap.alloc, hne, hlive]
  obtain ⟨d1, s1⟩ := assign_step _ _ _ _ _
    (fun o t => { o with m_samples_per_pixel := t.m_samples_per_pixel }) d0 s0 hne
  obtain ⟨d2, s2⟩ := assign_step _ _ _ _ _
    (fun o t => { o with m_base_seed := t.m_base_seed }) d1 s1 hne
  obtain ⟨d3, s3⟩ := assign_step _ _ _ _ _
    (fun o t => { o with m_samples_per_pixel := t.m_samples_per_pixel }) d2 s2 hne
  obtain ⟨d4, s4⟩ := assign_step _ _ _ _ _
    (fun o t => { o with m_sample_index := t.m_sample_index }) d3 s3 hne
  obtain ⟨d5, s5⟩ := assign_step _ _ _ _ _
    (fun o t => { o with m_dimension := t.m_dimension }) d4 s4 hne
  obtain ⟨d6, s6⟩ := assign_step _ _ _ _ _
    (fun o t => { o with m_pixel := t.m_pixel }) d5 s5 hne
  obtain ⟨d7, _⟩ := assign_step _ _ _ _ _
    (fun o t => { o with m_rng := t.m_rng }) d6 s6 hne
  exact d7

theorem heap_call_other {σ φ : Type} (R : RNG σ φ) (hash : Vec2i → Nat → Nat) (h : Heap σ)
    (a b : Nat) (c : Call) (hab : a ≠ b) (ha : a < h.next) :
    (Heap.call R hash h b c).2.cells a = h.cells a ∧ a < (Heap.call R hash h b c).2.next := by
  by_cases hc : c = Call.clone
  · subst hc
    exact ⟨clone_cells_old R h b a ha, by
      show a < (Heap.clone R h b).1.next
      rw [clone_next]
      omega⟩
  · have hcall : Heap.call R hash h b c
        = match h.cells b with
          | some o =>
            ((IndependentSampler.call R hash o c).1,
              h.store b (IndependentSampler.call R hash o c).2)
          | none => (none, h) := by
      cases c <;> first | rfl | exact absurd rfl hc
    rw [hcall]
    split
    · exact ⟨by simp [Heap.store, hab], ha⟩
    · exact ⟨rfl, ha⟩

theorem heap_call_same {σ φ : Type} (R : RNG σ φ) (hash : Vec2i → Nat → Nat) (h₁ h₂ : Heap σ)
    (a : Nat) (c : Call) (heq : h₁.cells a = h₂.cells a) (ha₁ : a < h₁.next)
    (ha₂ : a < h₂.next) :
    (Heap.call R hash h₁ a c).1 = (Heap.call R hash h₂ a c).1
      ∧ (Heap.call R hash h₁ a c).2.cells a = (Heap.call R hash h₂ a c).2.cells a
      ∧ a < (Heap.call R hash h₁ a c).2.next ∧ a < (Heap.call R hash h₂ a c).2.next := by
  by_cases hc : c = Call.clone
  · subst hc
    refine ⟨rfl, ?_, ?_, ?_⟩
    · show (Heap.clone R h₁ a).1.cells a = (Heap.clone R h₂ a).1.cells a
      rw [clone_cells_old R h₁ a a ha₁, clone_cells_old R h₂ a a ha₂, heq]
    · show a < (Heap.clone R h₁ a).1.next
      rw [clone_next]
      omega
    · show a < (Heap.clone R h₂ a).1.next
      rw [clone_next]
      omega
  · have hcall : ∀ h : Heap σ, Heap.call R hash h a c
        = match h.cells a with
          | some o =>
            ((IndependentSampler.call R hash o c).1,
              h.store a (IndependentSampler.call R hash o c).2)
          | none => (none, h) := by
      intro h
      cases c <;> first | rfl | exact absurd rfl hc
    rw [hcall h₁, hcall h₂, heq]
    cases h₂.cells a with
    | none => exact ⟨rfl, heq, ha₁, ha₂⟩
    | some o => exact ⟨rfl, by simp [Heap.store], ha₁, ha₂⟩

theorem heap_calls_frame {σ φ : Type} (R : RNG σ φ) (hash : Vec2i → Nat → Nat) (a : Nat)
    (sched : List (Nat × Call)) :
    ∀ h₁ h₂ : Heap σ, h₁.cells a = h₂.cells a → a < h₁.next → a < h₂.next →
      resultsAt a (Heap.calls R hash h₁ sched).1
          = resultsAt a (Heap.calls R hash h₂ (callsAt a sched)).1
        ∧ (Heap.calls R hash h₁ sched).2.cells a
            = (Heap.calls R hash h₂ (callsAt a sched)).2.cells a := by
  induction sched with
  | nil => intro h₁ h₂ heq _ _; exact ⟨rfl, heq⟩
  | cons tc rest ih =>
    intro h₁ h₂ heq ha₁ ha₂
    obtain ⟨b, c⟩ := tc
    by_cases hb : b = a
    · subst hb
      obtain ⟨r1, r2, r3, r4⟩ := heap_call_same R hash h₁ h₂ b c heq ha₁ ha₂
      obtain ⟨i1, i2⟩ := ih _ _ r2 r3 r4
      have hf : callsAt b ((b, c) :: rest) = (b, c) :: callsAt b rest := by
        simp [callsAt]
      rw [hf]
      simp only [Heap.calls, resultsAt, List.filter_cons, decide_True, if_true, List.map_cons]
      simp only [resultsAt] at i1
      exact ⟨by rw [r1, i1], i2⟩
    · have hab : a ≠ b := fun e => hb e.symm
      obtain ⟨o1, o2⟩ := heap_call_other R hash h₁ a b c hab ha₁
      obtain ⟨i1, i2⟩ := ih (Heap.call R hash h₁ b c).2 h₂ (by rw [o1, heq]) o2 ha₂
      have hf : callsAt a ((b, c) :: rest) = callsAt a rest := by
        simp [callsAt, hb]
      rw [hf]
      simp only [Heap.calls, resultsAt, List.filter_cons, hb, decide_False, if_false]
      simp only [resultsAt] at i1
      exact ⟨i1, i2⟩

/-! ## The claims -/

/-- C1. Determinism: for an engine whose `seed` resets its state, two samplers with the same base
seed, whatever else they hold, return the same values for every finite sequence of
`next1f`/`next2f` calls after `start_pixel(p, i)`, and end with the same dimension counter. -/
theorem determinism {σ φ : Type} (R : RNG σ φ) (hR : SeedResets R) (hash : Vec2i → Nat → Nat)
    (s₁ s₂ : IndependentSampler σ) (hb : s₁.m_base_seed = s₂.m_base_seed)
    (p : Vec2i) (i : Nat) (ds : List Draw) :
    (draws R (start_pixel R hash s₁ p i) ds).1 = (draws R (start_pixel R hash s₂ p i) ds).1
      ∧ (draws R (start_pixel R hash s₁ p i) ds).2.m_dimension
          = (draws R (start_pixel R hash s₂ p i) ds).2.m_dimension := by
  have hrng : (start_pixel R hash s₁ p i).m_rng = (start_pixel R hash s₂ p i).m_rng := by
    rw [start_pixel_rng, start_pixel_rng, hb, hR s₁.m_rng s₂.m_rng]
  obtain ⟨h1, h2, _⟩ :=
    draws_congr R ds (start_pixel R hash s₁ p i) (start_pixel R hash s₂ p i) rfl hrng
  exact ⟨h1, h2⟩

/-- Witness of C1: a sampler in the middle of a sample and a fresh one, both with base seed 7,
agree on a `next1f`, `next2f`, `next1f` sequence after `start_pixel((2, 3), 1)`. -/
theorem determinism_witness :
    SeedResets lcg ∧ busySampler.m_base_seed = freshSampler.m_base_seed
      ∧ (draws lcg (start_pixel lcg mix busySampler ⟨2, 3⟩ 1)
            [Draw.next1f, Draw.next2f, Draw.next1f]).1
          = (draws lcg (start_pixel lcg mix freshSampler ⟨2, 3⟩ 1)
            [Draw.next1f, Draw.next2f, Draw.next1f]).1
      ∧ (draws lcg (start_pixel lcg mix busySampler ⟨2, 3⟩ 1)
            [Draw.next1f, Draw.next2f, Draw.next1f]).2.m_dimension
          = (draws lcg (start_pixel lcg mix freshSampler ⟨2, 3⟩ 1)
            [Draw.next1f, Draw.next2f, Draw.next1f]).2.m_dimension :=
  ⟨lcg_seedResets, rfl,
    determinism lcg lcg_seedResets mix busySampler freshSampler rfl ⟨2, 3⟩ 1
      [Draw.next1f, Draw.next2f, Draw.next1f]⟩

/-- C2. Seeding algorithm: for an engine whose `seed` resets its state, the engine state after
`start_pixel(p, i)` is `advance(seed(hash(p, b)), i)` with `b` the base seed, whatever engine
state `r₀` the reseeding starts from: the state before the call plays no part. -/
theorem start_pixel_seeding {σ φ : Type} (R : RNG σ φ) (hR : SeedResets R)
    (hash : Vec2i → Nat → Nat) (s : IndependentSampler σ) (p : Vec2i) (i : Nat) (r₀ : σ) :
    (start_pixel R hash s p i).m_rng = R.advance (R.seed r₀ (hash p s.m_base_seed)) i := by
  rw [start_pixel_rng, hR s.m_rng r₀]

/-- Witness of C2: the engine of the busy example sampler after `start_pixel((2, 3), 1)` is the
one obtained by reseeding a default engine. -/
theorem start_pixel_seeding_witness :
    SeedResets lcg
      ∧ (start_pixel lcg mix busySampler ⟨2, 3⟩ 1).m_rng
          = lcg.advance (lcg.seed lcg.init (mix ⟨2, 3⟩ busySampler.m_base_seed)) 1 :=
  ⟨lcg_seedResets, start_pixel_seeding lcg lcg_seedResets mix busySampler ⟨2, 3⟩ 1 lcg.init⟩

/-- C3, as stated, fails: after `start_pixel`, `2 ^ 32` calls of `next1f` leave the 32-bit
dimension counter at 0, not at `2 ^ 32`, so the counter is not `a + 2c` for every sequence. -/
theorem dimension_sum_fails :
    ¬ ∀ (s : IndependentSampler Nat) (p : Vec2i) (i : Nat) (ds : List Draw),
        (draws lcg (start_pixel lcg mix s p i) ds).2.m_dimension
          = count1f ds + 2 * count2f ds := by
  intro h
  have h1 := h freshSampler ⟨0, 0⟩ 0 (List.replicate (2 ^ 32) Draw.next1f)
  rw [dimension_replicate, count1f_replicate, count2f_replicate, Nat.mod_self] at h1
  exact absurd h1 (by norm_num)

/-- C3, amended: after `start_pixel` the dimension counter is 0, after one `next1f` it is 1 and
after one additional `next2f` it is 3; from any state `next1f` adds 1 and `next2f` adds 2 modulo
`2 ^ 32`; after `start_pixel`, `a` calls of `next1f` and `c` calls of `next2f` in any order leave
the counter at `(a + 2c) mod 2 ^ 32`. -/
theorem dimension_accounting {σ φ : Type} (R : RNG σ φ) (hash : Vec2i → Nat → Nat)
    (s : IndependentSampler σ) (p : Vec2i) (i : Nat) :
    (start_pixel R hash s p i).m_dimension = 0
      ∧ (next1f R (start_pixel R hash s p i)).2.m_dimension = 1
      ∧ (next2f R (next1f R (start_pixel R hash s p i)).2).2.m_dimension = 3
      ∧ (∀ t : IndependentSampler σ, (next1f R t).2.m_dimension = (t.m_dimension + 1) % 2 ^ 32)
      ∧ (∀ t : IndependentSampler σ, (next2f R t).2.m_dimension = (t.m_dimension + 2) % 2 ^ 32)
      ∧ ∀ ds : List Draw,
          (draws R (start_pixel R hash s p i) ds).2.m_dimension
            = (count1f ds + 2 * count2f ds) % 2 ^ 32 := by
  refine ⟨rfl, rfl, rfl, fun _ => rfl, fun _ => rfl, fun ds => ?_⟩
  rw [draws_dimension R ds _ (by rw [start_pixel_dimension]; norm_num), start_pixel_dimension,
    Nat.zero_add]

/-- C4. Clone fidelity: the clone has the same base seed, samples-per-pixel, sample index,
dimension, pixel and engine state as the original, and every sequence of calls returns the same
values and ends in the same state on the clone as on the original. -/
theorem clone_fidelity {σ φ : Type} (R : RNG σ φ) (hash : Vec2i → Nat → Nat)
    (s : IndependentSampler σ) :
    (clone R s).m_base_seed = s.m_base_seed
      ∧ (clone R s).m_samples_per_pixel = s.m_samples_per_pixel
      ∧ (clone R s).m_sample_index = s.m_sample_index
      ∧ (clone R s).m_dimension = s.m_dimension
      ∧ (clone R s).m_pixel = s.m_pixel
      ∧ (clone R s).m_rng = s.m_rng
      ∧ ∀ cs : List Call, calls R hash (clone R s) cs = calls R hash s cs := by
  refine ⟨rfl, rfl, rfl, rfl, rfl, rfl, fun cs => ?_⟩
  rw [clone_eq]

/-- C5. Clone independence, on the free store: `clone` returns a pointer to a fresh object, leaves
the original and every other live object as it was, and gives the new object the receiver's
field values; after it, in every interleaving of calls made through any pointers, the values
returned through the clone's pointer and the clone's final state are the same as in the run in
which only the calls on the clone are made, and likewise for the original. -/
theorem clone_independence {σ φ : Type} (R : RNG σ φ) (hash : Vec2i → Nat → Nat)
    (h : Heap σ) (p : Nat) (o : IndependentSampler σ) (hlive : h.cells p = some o)
    (hp : p < h.next) (sched : List (Nat × Call)) :
    (Heap.clone R h p).2 ≠ p
      ∧ (∀ a : Nat, a < h.next → (Heap.clone R h p).1.cells a = h.cells a)
      ∧ (Heap.clone R h p).1.cells (Heap.clone R h p).2 = some (clone R o)
      ∧ resultsAt (Heap.clone R h p).2 (Heap.calls R hash (Heap.clone R h p).1 sched).1
          = resultsAt (Heap.clone R h p).2
              (Heap.calls R hash (Heap.clone R h p).1 (callsAt (Heap.clone R h p).2 sched)).1
      ∧ (Heap.calls R hash (Heap.clone R h p).1 sched).2.cells (Heap.clone R h p).2
          = (Heap.calls R hash (Heap.clone R h p).1
              (callsAt (Heap.clone R h p).2 sched)).2.cells (Heap.clone R h p).2
      ∧ resultsAt p (Heap.calls R hash (Heap.clone R h p).1 sched).1
          = resultsAt p (Heap.calls R hash (Heap.clone R h p).1 (callsAt p sched)).1
      ∧ (Heap.calls R hash (Heap.clone R h p).1 sched).2.cells p
          = (Heap.calls R hash (Heap.clone R h p).1 (callsAt p sched)).2.cells p := by
  have hq : (Heap.clone R h p).2 < (Heap.clone R h p).1.next := by
    rw [clone_ptr, clone_next]
    omega
  have hp2 : p < (Heap.clone R h p).1.next := by
    rw [clone_next]
    omega
  obtain ⟨c1, c2⟩ :=
    heap_calls_frame R hash (Heap.clone R h p).2 sched _ _ rfl hq hq
  obtain ⟨o1, o2⟩ := heap_calls_frame R hash p sched (Heap.clone R h p).1 _ rfl hp2 hp2
  refine ⟨?_, fun a ha => clone_cells_old R h p a ha, clone_cells_new R h p o hlive hp,
    c1, c2, o1, o2⟩
  rw [clone_ptr]
  omega

/-- Witness of C5: the busy example sampler at address 0 is cloned to address 1; the original is
then restarted on another pixel, reseeded and drawn from, interleaved with draws on the clone. -/
theorem clone_independence_witness :
    busyHeap.cells 0 = some busySampler ∧ 0 < busyHeap.next
      ∧ (Heap.clone lcg busyHeap 0).2 ≠ 0
      ∧ (Heap.clone lcg busyHeap 0).1.cells (Heap.clone lcg busyHeap 0).2
          = some (clone lcg busySampler)
      ∧ resultsAt (Heap.clone lcg busyHeap 0).2
            (Heap.calls lcg mix (Heap.clone lcg busyHeap 0).1
              [(0, Call.next1f), (1, Call.next1f), (0, Call.set_base_seed 9),
                (0, Call.start_pixel ⟨1, 1⟩ 2), (1, Call.next2f), (0, Call.next1f),
                (1, Call.next1f)]).1
          = resultsAt (Heap.clone lcg busyHeap 0).2
              (Heap.calls lcg mix (Heap.clone lcg busyHeap 0).1
                (callsAt (Heap.clone lcg busyHeap 0).2
                  [(0, Call.next1f), (1, Call.next1f), (0, Call.set_base_seed 9),
                    (0, Call.start_pixel ⟨1, 1⟩ 2), (1, Call.next2f), (0, Call.next1f),
                    (1, Call.next1f)])).1 :=
  ⟨rfl, by decide,
    (clone_independence lcg mix busyHeap 0 busySampler rfl (by decide)
      [(0, Call.next1f), (1, Call.next1f), (0, Call.set_base_seed 9),
        (0, Call.start_pixel ⟨1, 1⟩ 2), (1, Call.next2f), (0, Call.next1f),
        (1, Call.next1f)]).1,
    (clone_independence lcg mix busyHeap 0 busySampler rfl (by decide)
      [(0, Call.next1f), (1, Call.next1f), (0, Call.set_base_seed 9),
        (0, Call.start_pixel ⟨1, 1⟩ 2), (1, Call.next2f), (0, Call.next1f),
        (1, Call.next1f)]).2.2.1,
    (clone_independence lcg mix busyHeap 0 busySampler rfl (by decide)
      [(0, Call.next1f), (1, Call.next1f), (0, Call.set_base_seed 9),
        (0, Call.start_pixel ⟨1, 1⟩ 2), (1, Call.next2f), (0, Call.next1f),
        (1, Call.next1f)]).2.2.2.1⟩

/-- C6. Configuration round-trip: for every positive `n` that fits a 32-bit `int`, a
configuration object whose "samples" member is `n` constructs a sampler with
`samples_per_pixel() = n`, base seed 0, sample index 0, dimension 0 and pixel (0, 0). -/
theorem config_round_trip {σ φ : Type} (R : RNG σ φ) (n : Int) (hpos : 0 < n)
    (hfit : n < 2 ^ 31) (members : List (String × json))
    (hm : members.lookup "samples" = some (json.number n)) :
    ∃ s : IndependentSampler σ, ofJson R (json.object members) = Except.ok s
      ∧ (s.samples_per_pixel : Int) = n ∧ s.m_base_seed = 0 ∧ s.m_sample_index = 0
      ∧ s.m_dimension = 0 ∧ s.m_pixel = ⟨0, 0⟩ := by
  refine ⟨_, ofJson_number R members n hm, ?_, rfl, rfl, rfl, rfl⟩
  show (toUInt32 (toInt32 n) : Int) = n
  rw [toUInt32_toInt32 n]
  norm_num at hfit ⊢
  omega

/-- Witness of C6: `{"samples": 16}` gives a sampler with 16 samples per pixel. -/
theorem config_round_trip_witness :
    (0 : Int) < 16 ∧ (16 : Int) < 2 ^ 31
      ∧ ∃ s : IndependentSampler Nat,
          ofJson lcg (json.object [("samples", json.number 16)]) = Except.ok s
            ∧ (s.samples_per_pixel : Int) = 16 ∧ s.m_base_seed = 0 ∧ s.m_sample_index = 0
            ∧ s.m_dimension = 0 ∧ s.m_pixel = ⟨0, 0⟩ :=
  ⟨by norm_num, by norm_num,
    config_round_trip lcg 16 (by norm_num) (by norm_num) [("samples", json.number 16)]
      (by simp [List.lookup])⟩

/-- C7, as stated, fails: `{"samples": 0}` constructs a sampler (with 0 samples per pixel) and
`{"samples": -1}` constructs one with `2 ^ 32 - 1` samples per pixel; neither raises. -/
theorem zero_samples_accepted :
    (∃ s : IndependentSampler Nat,
        ofJson lcg (json.object [("samples", json.number 0)]) = Except.ok s
          ∧ s.samples_per_pixel = 0)
      ∧ ∃ s : IndependentSampler Nat,
          ofJson lcg (json.object [("samples", json.number (-1))]) = Except.ok s
            ∧ s.samples_per_pixel = 4294967295 :=
  ⟨⟨_, ofJson_number lcg _ 0 (by simp [List.lookup]), by decide⟩,
    ⟨_, ofJson_number lcg _ (-1) (by simp [List.lookup]), by decide⟩⟩

/-- C7, amended: a configuration whose "samples" member is zero or a negative `int` is accepted:
construction returns a sampler and raises nothing; its `samples_per_pixel()` is 0 for zero and
`2 ^ 32 + n` for a negative `n`. -/
theorem nonpositive_samples_accepted {σ φ : Type} (R : RNG σ φ) (n : Int) (hn : n ≤ 0)
    (hfit : -2 ^ 31 ≤ n) (members : List (String × json))
    (hm : members.lookup "samples" = some (json.number n)) :
    ∃ s : IndependentSampler σ, ofJson R (json.object members) = Except.ok s
      ∧ (s.samples_per_pixel : Int) = if n = 0 then 0 else 2 ^ 32 + n := by
  refine ⟨_, ofJson_number R members n hm, ?_⟩
  show (toUInt32 (toInt32 n) : Int) = _
  rw [toUInt32_toInt32 n]
  split
  · next h => rw [h]; rfl
  · next h =>
    norm_num at hfit ⊢
    omega

/-- Witness of C7 (amended): `{"samples": -3}` constructs a sampler with `2 ^ 32 - 3` samples per
pixel. -/
theorem nonpositive_samples_accepted_witness :
    (-3 : Int) ≤ 0 ∧ (-2 ^ 31 : Int) ≤ -3
      ∧ ∃ s : IndependentSampler Nat,
          ofJson lcg (json.object [("samples", json.number (-3))]) = Except.ok s
            ∧ (s.samples_per_pixel : Int) = if (-3 : Int) = 0 then 0 else 2 ^ 32 + -3 :=
  ⟨by norm_num, by norm_num,
    nonpositive_samples_accepted lcg (-3) (by norm_num) (by norm_num)
      [("samples", json.number (-3))] (by simp [List.lookup])⟩

/-- C8. Missing key: for every configuration object with no "samples" member the lookup raises
and construction returns no sampler. -/
theorem missing_key_rejected {σ φ : Type} (R : RNG σ φ) (members : List (String × json))
    (h : ∀ kv ∈ members, kv.1 ≠ "samples") :
    ofJson R (json.object members) = Except.error json_exception.out_of_range := by
  simp [ofJson, json.atKey, lookup_none_of_absent "samples" members h]

/-- Witness of C8: `{"spp": 16}` has no "samples" member and is rejected. -/
theorem missing_key_rejected_witness :
    (∀ kv ∈ [("spp", json.number 16)], kv.1 ≠ "samples")
      ∧ ofJson lcg (json.object [("spp", json.number 16)])
          = Except.error json_exception.out_of_range :=
  ⟨by simp, missing_key_rejected lcg [("spp", json.number 16)] (by simp)⟩

/-- C9, as stated, fails: with an engine whose `advance(n)` is `n` draws, the engine state one
draw after `start_pixel(p, 0)` is the state right after `start_pixel(p, 1)`, and the second value
drawn for index 0 is the first value drawn for index 1: the two sub-streams overlap. -/
theorem substreams_overlap :
    AdvanceIsDraws lcg ∧ (0 : Nat) ≠ 1
      ∧ streamState lcg mix freshSampler ⟨0, 0⟩ 0 1 = streamState lcg mix freshSampler ⟨0, 0⟩ 1 0
      ∧ (draws lcg (start_pixel lcg mix freshSampler ⟨0, 0⟩ 0) [Draw.next1f, Draw.next1f]).1.tail
          = (draws lcg (start_pixel lcg mix freshSampler ⟨0, 0⟩ 1) [Draw.next1f]).1 :=
  ⟨lcg_advanceIsDraws, by decide, rfl, rfl⟩

/-- C9, amended: with an engine whose `advance(n)` is `n` scalar draws, the sub-streams of one
pixel are shifts of one stream: the engine state after `k` draws for index `i` equals the state
after `l` draws for index `j` whenever `i + k = j + l`, so the streams of distinct indices
overlap; and if the engine does not revisit a state within the first `max (i + k) (j + l)` draws
from the seeded state, the two states differ whenever `i + k ≠ j + l`. -/
theorem substreams_shifted {σ φ : Type} (R : RNG σ φ) (hA : AdvanceIsDraws R)
    (hash : Vec2i → Nat → Nat) (s : IndependentSampler σ) (p : Vec2i) (i j k l : Nat) :
    (i + k = j + l → streamState R hash s p i k = streamState R hash s p j l)
      ∧ ((∀ a b : Nat, a < b → b ≤ max (i + k) (j + l) →
            (R.step)^[a] (R.seed s.m_rng (hash p s.m_base_seed))
              ≠ (R.step)^[b] (R.seed s.m_rng (hash p s.m_base_seed))) →
          i + k ≠ j + l → streamState R hash s p i k ≠ streamState R hash s p j l) := by
  rw [streamState_eq R hA, streamState_eq R hA]
  constructor
  · intro h
    rw [h]
  · intro hinj hne h
    rcases Nat.lt_or_gt_of_ne hne with hlt | hgt
    · exact hinj _ _ hlt (le_max_right _ _) h
    · exact hinj _ _ hgt (le_max_left _ _) h.symm

/-- Witness of C9 (amended): on the example engine, three draws for index 0 and one draw for
index 2 reach the same engine state (`0 + 3 = 2 + 1`), while two draws for index 0 and two draws
for index 1 reach different states (`0 + 2 ≠ 1 + 2`), the engine not repeating within its first
three draws. -/
theorem substreams_shifted_witness :
    AdvanceIsDraws lcg
      ∧ (0 + 3 = 2 + 1
        ∧ streamState lcg mix freshSampler ⟨0, 0⟩ 0 3 = streamState lcg mix freshSampler ⟨0, 0⟩ 2 1)
      ∧ ((∀ a b : Nat, a < b → b ≤ max (0 + 2) (1 + 2) →
            (lcg.step)^[a] (lcg.seed freshSampler.m_rng (mix ⟨0, 0⟩ freshSampler.m_base_seed))
              ≠ (lcg.step)^[b]
                  (lcg.seed freshSampler.m_rng (mix ⟨0, 0⟩ freshSampler.m_base_seed)))
        ∧ 0 + 2 ≠ 1 + 2
        ∧ streamState lcg mix freshSampler ⟨0, 0⟩ 0 2
            ≠ streamState lcg mix freshSampler ⟨0, 0⟩ 1 2) :=
  ⟨lcg_advanceIsDraws,
    ⟨rfl, (substreams_shifted lcg lcg_advanceIsDraws mix freshSampler ⟨0, 0⟩ 0 2 3 1).1 rfl⟩,
    ⟨fun a b hab hb => lcg_no_repeat_fresh a b hab (by simp at hb; omega), by decide,
      (substreams_shifted lcg lcg_advanceIsDraws mix freshSampler ⟨0, 0⟩ 0 1 2 2).2
        (fun a b hab hb => lcg_no_repeat_fresh a b hab (by simp at hb; omega)) (by decide)⟩⟩

/-- C10, as stated, fails: a sampler constructed with 4 samples per pixel holds sample index 9
after `start_pixel((0, 0), 9)`, and sample index 4 after a write of 4 through `sample_index()`. -/
theorem sample_index_escapes :
    ∃ s₀ : IndependentSampler Nat,
      ofJson lcg (json.object [("samples", json.number 4)]) = Except.ok s₀
        ∧ ¬ ((calls lcg mix s₀ [Call.start_pixel ⟨0, 0⟩ 9]).2.m_sample_index
              < (calls lcg mix s₀ [Call.start_pixel ⟨0, 0⟩ 9]).2.m_samples_per_pixel)
        ∧ ¬ ((calls lcg mix s₀ [Call.set_sample_index 4]).2.m_sample_index
              < (calls lcg mix s₀ [Call.set_sample_index 4]).2.m_samples_per_pixel) :=
  ⟨_, ofJson_number lcg _ 4 (by simp [List.lookup]), by decide, by decide⟩

/-- C10, amended: from a sampler constructed with a positive sample count, every sequence of
`set_base_seed`, `start_pixel`, `next1f`, `next2f`, `clone` and `sample_index()` writes in which
each `start_pixel` index and each written index is below `samples_per_pixel` ends in a state
whose sample index lies in `[0, samples_per_pixel)`. -/
theorem sample_index_in_range {σ φ : Type} (R : RNG σ φ) (hash : Vec2i → Nat → Nat) (j : json)
    (s₀ : IndependentSampler σ) (hc : ofJson R j = Except.ok s₀)
    (hpos : 0 < s₀.m_samples_per_pixel) (cs : List Call)
    (hcs : indicesBelow s₀.m_samples_per_pixel cs) :
    0 ≤ (calls R hash s₀ cs).2.m_sample_index
      ∧ (calls R hash s₀ cs).2.m_sample_index < (calls R hash s₀ cs).2.m_samples_per_pixel := by
  have h0 : s₀.m_sample_index < s₀.m_samples_per_pixel := by
    rw [ofJson_ok_index R j s₀ hc]
    exact hpos
  obtain ⟨h1, h2⟩ := calls_index_in_range R hash _ cs s₀ rfl h0 hcs
  exact ⟨Nat.zero_le _, by rw [h1]; exact h2⟩

/-- Witness of C10 (amended): a sampler built from `{"samples": 4}` that is given a seed, started
on sample 3 of pixel (5, 6), drawn from, cloned and set back to sample 0 holds a sample index
below 4. -/
theorem sample_index_in_range_witness :
    ofJson lcg (json.object [("samples", json.number 4)])
        = Except.ok { IndependentSampler.default lcg with m_samples_per_pixel := 4 }
      ∧ 0 < ({ IndependentSampler.default lcg with m_samples_per_pixel := 4 } :
          IndependentSampler Nat).m_samples_per_pixel
      ∧ indicesBelow 4 [Call.set_base_seed 11, Call.start_pixel ⟨5, 6⟩ 3, Call.next1f,
          Call.next2f, Call.clone, Call.set_sample_index 0]
      ∧ (calls lcg mix { IndependentSampler.default lcg with m_samples_per_pixel := 4 }
            [Call.set_base_seed 11, Call.start_pixel ⟨5, 6⟩ 3, Call.next1f, Call.next2f,
              Call.clone, Call.set_sample_index 0]).2.m_sample_index
          < (calls lcg mix { IndependentSampler.default lcg with m_samples_per_pixel := 4 }
            [Call.set_base_seed 11, Call.start_pixel ⟨5, 6⟩ 3, Call.next1f, Call.next2f,
              Call.clone, Call.set_sample_index 0]).2.m_samples_per_pixel :=
  ⟨ofJson_number lcg _ 4 (by simp [List.lookup]), by decide, by simp [indicesBelow],
    (sample_index_in_range lcg mix (json.object [("samples", json.number 4)])
      { IndependentSampler.default lcg with m_samples_per_pixel := 4 }
      (ofJson_number lcg _ 4 (by simp [List.lookup])) (by decide)
      [Call.set_base_seed 11, Call.start_pixel ⟨5, 6⟩ 3, Call.next1f, Call.next2f,
        Call.clone, Call.set_sample_index 0] (by simp [indicesBelow])).2⟩

/-! ## Further lemmas on draw sequences -/

theorem draws_append {σ φ : Type} (R : RNG σ φ) (ds₁ ds₂ : List Draw) :
    ∀ s : IndependentSampler σ,
      draws R s (ds₁ ++ ds₂)
        = ((draws R s ds₁).1 ++ (draws R (draws R s ds₁).2 ds₂).1,
            (draws R (draws R s ds₁).2 ds₂).2) := by
  induction ds₁ with
  | nil => intro s; rfl
  | cons d ds ih =>
    intro s
    have h := ih (draw R s d).2
    show draws R s (d :: (ds ++ ds₂)) = _
    simp only [draws, h, List.cons_append]

theorem draws_dimension_exact {σ φ : Type} (R : RNG σ φ) (ds : List Draw)
    (s : IndependentSampler σ)
    (h : s.m_dimension + count1f ds + 2 * count2f ds < 2 ^ 32) :
    (draws R s ds).2.m_dimension = s.m_dimension + count1f ds + 2 * count2f ds := by
  rw [draws_dimension R ds s (by omega), Nat.mod_eq_of_lt h]

theorem count1f_append (ds₁ ds₂ : List Draw) :
    count1f (ds₁ ++ ds₂) = count1f ds₁ + count1f ds₂ := by
  simp [count1f]

theorem count2f_append (ds₁ ds₂ : List Draw) :
    count2f (ds₁ ++ ds₂) = count2f ds₁ + count2f ds₂ := by
  simp [count2f]

theorem next1f_dimension {σ φ : Type} (R : RNG σ φ) (t : IndependentSampler σ) :
    (next1f R t).2.m_dimension = (t.m_dimension + 1) % 2 ^ 32 := rfl

/-! ## The claims, continued -/

/-- C11, as stated, fails: after `start_pixel` and `2 ^ 32 - 1` calls of `next1f` the counter is
`2 ^ 32 - 1`, and the next `next1f`, with no `start_pixel` in between, takes it down to 0. -/
theorem dimension_decreases :
    (draws lcg (start_pixel lcg mix freshSampler ⟨0, 0⟩ 0)
        (List.replicate 4294967295 Draw.next1f)).2.m_dimension = 4294967295
      ∧ (next1f lcg (draws lcg (start_pixel lcg mix freshSampler ⟨0, 0⟩ 0)
          (List.replicate 4294967295 Draw.next1f)).2).2.m_dimension = 0 := by
  rw [next1f_dimension, dimension_replicate]
  norm_num

/-- C11, amended: `start_pixel` sets the dimension counter to zero; `set_base_seed`, a write
through `sample_index()` and `clone` leave it as it is; and along a sequence of `next1f`/`next2f`
calls whose total, added to the starting counter, stays below `2 ^ 32`, the counter after any
prefix of the calls is at most the counter after the whole sequence. -/
theorem dimension_monotone {σ φ : Type} (R : RNG σ φ) (hash : Vec2i → Nat → Nat)
    (s : IndependentSampler σ) (ds₁ ds₂ : List Draw)
    (h : s.m_dimension + count1f (ds₁ ++ ds₂) + 2 * count2f (ds₁ ++ ds₂) < 2 ^ 32) :
    (∀ (p : Vec2i) (i : Nat), (start_pixel R hash s p i).m_dimension = 0)
      ∧ (∀ v : Nat, (set_base_seed s v).m_dimension = s.m_dimension)
      ∧ (∀ v : Nat, (set_sample_index s v).m_dimension = s.m_dimension)
      ∧ (clone R s).m_dimension = s.m_dimension
      ∧ s.m_dimension ≤ (draws R s ds₁).2.m_dimension
      ∧ (draws R s ds₁).2.m_dimension ≤ (draws R s (ds₁ ++ ds₂)).2.m_dimension := by
  have h2 := h
  rw [count1f_append, count2f_append] at h2
  refine ⟨fun _ _ => rfl, fun _ => rfl, fun _ => rfl, rfl, ?_, ?_⟩
  · rw [draws_dimension_exact R ds₁ s (by omega)]
    omega
  · rw [draws_dimension_exact R (ds₁ ++ ds₂) s h, draws_dimension_exact R ds₁ s (by omega),
      count1f_append, count2f_append]
    omega

/-- Witness of C11 (amended): from the busy example sampler (counter 5), the counter after
`next1f` is at most the counter after `next1f`, `next2f`, `next1f`. -/
theorem dimension_monotone_witness :
    busySampler.m_dimension + count1f ([Draw.next1f] ++ [Draw.next2f, Draw.next1f])
        + 2 * count2f ([Draw.next1f] ++ [Draw.next2f, Draw.next1f]) < 2 ^ 32
      ∧ busySampler.m_dimension ≤ (draws lcg busySampler [Draw.next1f]).2.m_dimension
      ∧ (draws lcg busySampler [Draw.next1f]).2.m_dimension
          ≤ (draws lcg busySampler ([Draw.next1f] ++ [Draw.next2f, Draw.next1f])).2.m_dimension :=
  ⟨by decide,
    (dimension_monotone lcg mix busySampler [Draw.next1f] [Draw.next2f, Draw.next1f]
      (by decide)).2.2.2.2⟩

/-- C12. Postcondition and frame of `start_pixel`: whatever was stored before, after
`start_pixel(p, i)` the pixel is `p`, the sample index is `i` and the dimension counter is 0,
and the base seed and samples-per-pixel are as before. -/
theorem start_pixel_postcondition {σ φ : Type} (R : RNG σ φ) (hash : Vec2i → Nat → Nat)
    (s : IndependentSampler σ) (p : Vec2i) (i : Nat) :
    (start_pixel R hash s p i).m_pixel = p
      ∧ (start_pixel R hash s p i).m_sample_index = i
      ∧ (start_pixel R hash s p i).m_dimension = 0
      ∧ (start_pixel R hash s p i).m_base_seed = s.m_base_seed
      ∧ (start_pixel R hash s p i).m_samples_per_pixel = s.m_samples_per_pixel :=
  ⟨rfl, rfl, rfl, rfl, rfl⟩

/-- C13. Idempotence of `start_pixel`: for an engine whose `seed` resets its state,
`start_pixel(p, i)` applied twice in a row gives the same full state, engine included, as
applying it once. -/
theorem start_pixel_idempotent {σ φ : Type} (R : RNG σ φ) (hR : SeedResets R)
    (hash : Vec2i → Nat → Nat) (s : IndependentSampler σ) (p : Vec2i) (i : Nat) :
    start_pixel R hash (start_pixel R hash s p i) p i = start_pixel R hash s p i := by
  have hrng : (start_pixel R hash (start_pixel R hash s p i) p i).m_rng
      = (start_pixel R hash s p i).m_rng := by
    rw [start_pixel_rng, start_pixel_rng]
    show R.advance (R.seed _ (hash p s.m_base_seed)) i = _
    rw [hR _ s.m_rng]
  have hbase : (start_pixel R hash (start_pixel R hash s p i) p i).toSampler
      = (start_pixel R hash s p i).toSampler := rfl
  cases hl : start_pixel R hash (start_pixel R hash s p i) p i
  cases hr : start_pixel R hash s p i
  rw [hl, hr] at hrng hbase
  simp only at hrng hbase
  rw [hrng, hbase]

/-- Witness of C13: on the example engine, a second `start_pixel((2, 3), 1)` leaves the busy
example sampler as the first one left it. -/
theorem start_pixel_idempotent_witness :
    SeedResets lcg
      ∧ start_pixel lcg mix (start_pixel lcg mix busySampler ⟨2, 3⟩ 1) ⟨2, 3⟩ 1
          = start_pixel lcg mix busySampler ⟨2, 3⟩ 1 :=
  ⟨lcg_seedResets, start_pixel_idempotent lcg lcg_seedResets mix busySampler ⟨2, 3⟩ 1⟩

/-! ## Values depend on the engine state alone -/

theorem draws_values_congr {σ φ : Type} (R : RNG σ φ) (ds : List Draw) :
    ∀ s t : IndependentSampler σ, s.m_rng = t.m_rng →
      (draws R s ds).1 = (draws R t ds).1
        ∧ (draws R s ds).2.m_rng = (draws R t ds).2.m_rng := by
  induction ds with
  | nil => intro s t hr; exact ⟨rfl, hr⟩
  | cons d ds ih =>
    intro s t hr
    have hv : (draw R s d).1 = (draw R t d).1 := by
      cases d <;> simp [draw, next1f, next2f, hr]
    have hn : (draw R s d).2.m_rng = (draw R t d).2.m_rng := by
      cases d <;> simp [draw, next1f, next2f, hr]
    obtain ⟨k1, k2⟩ := ih _ _ hn
    simp only [draws]
    exact ⟨by rw [hv, k1], k2⟩

theorem next1f_start_pixel_rng {σ φ : Type} (R : RNG σ φ) (hA : AdvanceIsDraws R)
    (hash : Vec2i → Nat → Nat) (s : IndependentSampler σ) (p : Vec2i) (i : Nat) :
    (next1f R (start_pixel R hash s p i)).2.m_rng = (start_pixel R hash s p (i + 1)).m_rng := by
  show R.step (start_pixel R hash s p i).m_rng = _
  rw [start_pixel_rng, start_pixel_rng, hA, hA, Function.iterate_succ_apply']

/-! ## The claims, continued: streams and frames -/

/-- C15. Sample streams of one pixel are shifts of each other: with an engine whose `advance(n)`
is `n` scalar draws, the `k` values drawn by `next1f` after `start_pixel(p, i + 1)` are the
values number 2 to `k + 1` drawn after `start_pixel(p, i)`, and the engine state after
`start_pixel(p, i)` and `m` calls of `next1f` is the engine state after
`start_pixel(p, i + m)`. -/
theorem streams_are_shifts {σ φ : Type} (R : RNG σ φ) (hA : AdvanceIsDraws R)
    (hash : Vec2i → Nat → Nat) (s : IndependentSampler σ) (p : Vec2i) (i k m : Nat) :
    (draws R (start_pixel R hash s p (i + 1)) (List.replicate k Draw.next1f)).1
        = (draws R (start_pixel R hash s p i) (List.replicate (k + 1) Draw.next1f)).1.tail
      ∧ streamState R hash s p i m = (start_pixel R hash s p (i + m)).m_rng := by
  constructor
  · have hr := next1f_start_pixel_rng R hA hash s p i
    have hc := (draws_values_congr R (List.replicate k Draw.next1f)
      (next1f R (start_pixel R hash s p i)).2 (start_pixel R hash s p (i + 1)) hr).1
    rw [← hc]
    rfl
  · rw [streamState_eq R hA, start_pixel_rng, hA]

/-- Witness of C15: on the example engine, two values drawn for sample index 1 are the second
and third values drawn for sample index 0, and three draws after `start_pixel(p, 0)` the engine
is where `start_pixel(p, 3)` puts it. -/
theorem streams_are_shifts_witness :
    AdvanceIsDraws lcg
      ∧ (draws lcg (start_pixel lcg mix freshSampler ⟨0, 0⟩ (0 + 1))
            (List.replicate 2 Draw.next1f)).1
          = (draws lcg (start_pixel lcg mix freshSampler ⟨0, 0⟩ 0)
            (List.replicate (2 + 1) Draw.next1f)).1.tail
      ∧ streamState lcg mix freshSampler ⟨0, 0⟩ 0 3
          = (start_pixel lcg mix freshSampler ⟨0, 0⟩ (0 + 3)).m_rng :=
  ⟨lcg_advanceIsDraws, streams_are_shifts lcg lcg_advanceIsDraws mix freshSampler ⟨0, 0⟩ 0 2 3⟩

/-- C16. Frame of `set_base_seed`: after `set_base_seed(v)` the base seed is `v` and
samples-per-pixel, sample index, dimension, pixel and engine state are as before; every sequence
of draws made next returns the same values and ends with the same counter and engine as without
the call; and the next `start_pixel(p, i)` seeds the engine from `hash(p, v)`. -/
theorem set_base_seed_frame {σ φ : Type} (R : RNG σ φ) (hash : Vec2i → Nat → Nat)
    (s : IndependentSampler σ) (v : Nat) :
    (set_base_seed s v).m_base_seed = v
      ∧ (set_base_seed s v).m_samples_per_pixel = s.m_samples_per_pixel
      ∧ (set_base_seed s v).m_sample_index = s.m_sample_index
      ∧ (set_base_seed s v).m_dimension = s.m_dimension
      ∧ (set_base_seed s v).m_pixel = s.m_pixel
      ∧ (set_base_seed s v).m_rng = s.m_rng
      ∧ (∀ ds : List Draw,
          (draws R (set_base_seed s v) ds).1 = (draws R s ds).1
            ∧ (draws R (set_base_seed s v) ds).2.m_dimension = (draws R s ds).2.m_dimension
            ∧ (draws R (set_base_seed s v) ds).2.m_rng = (draws R s ds).2.m_rng)
      ∧ ∀ (p : Vec2i) (i : Nat),
          (start_pixel R hash (set_base_seed s v) p i).m_rng
            = R.advance (R.seed s.m_rng (hash p v)) i :=
  ⟨rfl, rfl, rfl, rfl, rfl, rfl, fun ds => draws_congr R ds (set_base_seed s v) s rfl rfl,
    fun _ _ => rfl⟩

/-- C17. Frame of the draws: `next1f` and `next2f` leave base seed, samples-per-pixel, sample
index and pixel as they were; the value returned is the engine's scalar draw (`next1f`) or pair
draw (`next2f`) from the engine state before the call, and the engine state after the call is
the one that draw leaves. -/
theorem draw_frame {σ φ : Type} (R : RNG σ φ) (s : IndependentSampler σ) :
    ((next1f R s).2.m_base_seed = s.m_base_seed
        ∧ (next1f R s).2.m_samples_per_pixel = s.m_samples_per_pixel
        ∧ (next1f R s).2.m_sample_index = s.m_sample_index
        ∧ (next1f R s).2.m_pixel = s.m_pixel
        ∧ (next1f R s).1 = (R.rand1f s.m_rng).1
        ∧ (next1f R s).2.m_rng = (R.rand1f s.m_rng).2)
      ∧ ((next2f R s).2.m_base_seed = s.m_base_seed
        ∧ (next2f R s).2.m_samples_per_pixel = s.m_samples_per_pixel
        ∧ (next2f R s).2.m_sample_index = s.m_sample_index
        ∧ (next2f R s).2.m_pixel = s.m_pixel
        ∧ (next2f R s).1 = (R.rand2f s.m_rng).1
        ∧ (next2f R s).2.m_rng = (R.rand2f s.m_rng).2) :=
  ⟨⟨rfl, rfl, rfl, rfl, rfl, rfl⟩, ⟨rfl, rfl, rfl, rfl, rfl, rfl⟩⟩

/-- C18. Frame of a write through `sample_index()`: the write changes the stored sample index
and nothing else; every sequence of draws made next returns the same values and ends with the
same counter and engine as without the write; and a later `start_pixel(p, i)` gives the state it
gives without the write, with sample index `i`. -/
theorem sample_index_write_frame {σ φ : Type} (R : RNG σ φ) (hash : Vec2i → Nat → Nat)
    (s : IndependentSampler σ) (v : Nat) :
    (set_sample_index s v).m_sample_index = v
      ∧ (set_sample_index s v).m_rng = s.m_rng
      ∧ (set_sample_index s v).m_dimension = s.m_dimension
      ∧ (set_sample_index s v).m_pixel = s.m_pixel
      ∧ (set_sample_index s v).m_base_seed = s.m_base_seed
      ∧ (set_sample_index s v).m_samples_per_pixel = s.m_samples_per_pixel
      ∧ (∀ ds : List Draw,
          (draws R (set_sample_index s v) ds).1 = (draws R s ds).1
            ∧ (draws R (set_sample_index s v) ds).2.m_dimension = (draws R s ds).2.m_dimension
            ∧ (draws R (set_sample_index s v) ds).2.m_rng = (draws R s ds).2.m_rng)
      ∧ ∀ (p : Vec2i) (i : Nat),
          start_pixel R hash (set_sample_index s v) p i = start_pixel R hash s p i
            ∧ (start_pixel R hash (set_sample_index s v) p i).m_sample_index = i
            ∧ (start_pixel R hash (set_sample_index s v) p i).m_rng
                = R.advance (R.seed s.m_rng (hash p s.m_base_seed)) i :=
  ⟨rfl, rfl, rfl, rfl, rfl, rfl, fun ds => draws_congr R ds (set_sample_index s v) s rfl rfl,
    fun _ _ => ⟨rfl, rfl, rfl⟩⟩

end Darts
